import Mathlib

/-!
Shallow embedding of `src/coolecode.py`, a turn-based Pokémon battle
simulator, together with proofs of the specification's claims about it.

Python mutation is modelled by explicit state passing: a method that
mutates a `Pokemon` in place becomes a function returning the updated
`Pokemon`.  Python's unbounded `int` is `Int`, `statistics.mean`'s exact
rational arithmetic is `Rat`, the `while` loop of `BattleArena.battle`
is a fuel-indexed recursion returning `Option` (with `none` meaning the
fuel ran out), and the random move selection of `random.choice` is an
explicit `pick : Nat` parameter reduced modulo the length of the move
list.  A call that would raise an exception returns `Except`/`Option`
failure instead.
-/

namespace Coolecode

/-- `Pokemon` dataclass (`coolecode.py` lines 38-52): `sort_index` is set by
`__post_init__` to the initial `hp`, `id` is drawn from the sequential id
generator. -/
structure Pokemon where
  sort_index : Int
  name : String
  type_ : String
  hp : Int
  attack : Int
  defense : Int
  speed : Int
  moves : List String
  id : String
deriving DecidableEq, Repr

/-- `infinite_id_generator("PKMN-")` (lines 28-34): the `counter`-th id it
yields is the prefix followed by the counter. -/
def pokemonId (counter : Nat) : String :=
  "PKMN-" ++ toString counter

/-- `Pokemon(...)` construction followed by `__post_init__` (lines 49-52):
`sort_index` is initialised to the creation-time `hp`, the id is the next
value of the process-wide generator, here passed explicitly as `counter`. -/
def mkPokemon (counter : Nat) (name type_ : String)
    (hp attack defense speed : Int) (moves : List String) : Pokemon :=
  { sort_index := hp
    name := name
    type_ := type_
    hp := hp
    attack := attack
    defense := defense
    speed := speed
    moves := moves
    id := pokemonId counter }

/-- `Pokemon.receive_damage` (lines 57-59): `self.hp = max(self.hp - damage, 0)`. -/
def receive_damage (p : Pokemon) (damage : Int) : Pokemon :=
  { p with hp := max (p.hp - damage) 0 }

/-- The failure mode of attack resolution; the spec calls it `InvalidState`
(in the source, `random.choice` on an empty move list raises). -/
inductive BattleError where
  | invalidState
deriving DecidableEq, Repr

/-- The damage computed by `Pokemon.attack_opponent` (line 64):
`max(self.attack - opponent.defense // 2, 1)`; Python's `//` on `int` is
floor division, i.e. `Int.fdiv`. -/
def damageDealt (attacker opponent : Pokemon) : Int :=
  max (attacker.attack - Int.fdiv opponent.defense 2) 1

/-- `Pokemon.attack_opponent` (lines 61-66).  `random.choice(self.moves)`
fails exactly when `self.moves` is empty; otherwise it returns the move at
some valid index, here `pick % length`.  On success the opponent receives
`damageDealt`; the chosen move is only displayed. -/
def attack_opponent (attacker opponent : Pokemon) (pick : Nat) :
    Except BattleError (String × Pokemon) :=
  if attacker.moves.isEmpty then
    .error .invalidState
  else
    let move := attacker.moves.getD (pick % attacker.moves.length) ""
    .ok (move, receive_damage opponent (damageDealt attacker opponent))

/-- The state effect of one successful `attack_opponent` call on the
opponent (the move choice does not influence it). -/
def applyAttack (attacker opponent : Pokemon) : Pokemon :=
  receive_damage opponent (damageDealt attacker opponent)

/-- One entry of `BattleArena.history` (lines 89-93). -/
structure BattleRecord where
  pkmn1 : String
  pkmn2 : String
  winner : String
deriving DecidableEq, Repr

/-- The `while` loop of `BattleArena.battle` (lines 77-85), as a
fuel-indexed recursion on the pair of combatants.  `none` means the fuel
was exhausted before the loop exited; `some (q1, q2)` gives the final
states of `pkmn1` and `pkmn2` when the loop exits. -/
def battleGo (fuel : Nat) (pkmn1 pkmn2 : Pokemon) : Option (Pokemon × Pokemon) :=
  if 0 < pkmn1.hp ∧ 0 < pkmn2.hp then
    match fuel with
    | 0 => none
    | fuel + 1 =>
      if pkmn2.speed ≤ pkmn1.speed then
        let pkmn2' := applyAttack pkmn1 pkmn2
        if pkmn2'.hp ≤ 0 then some (pkmn1, pkmn2')
        else battleGo fuel (applyAttack pkmn2' pkmn1) pkmn2'
      else
        let pkmn1' := applyAttack pkmn2 pkmn1
        if pkmn1'.hp ≤ 0 then some (pkmn1', pkmn2)
        else battleGo fuel pkmn1' (applyAttack pkmn1' pkmn2)
  else some (pkmn1, pkmn2)

/-- The result of `BattleArena.battle`: the returned winner name, the
updated `history` list, and the final states of the two combatants. -/
structure BattleOutcome where
  winnerName : String
  history : List BattleRecord
  pkmn1 : Pokemon
  pkmn2 : Pokemon
deriving DecidableEq, Repr

/-- `BattleArena.battle` (lines 74-94): run the loop, pick
`winner = pkmn1 if pkmn1.hp > 0 else pkmn2`, append one record to the
history, return the winner's name. -/
def battle (history : List BattleRecord) (pkmn1 pkmn2 : Pokemon)
    (fuel : Nat) : Option BattleOutcome :=
  match battleGo fuel pkmn1 pkmn2 with
  | none => none
  | some (q1, q2) =>
    let winner := if 0 < q1.hp then q1 else q2
    some { winnerName := winner.name
           history := history ++ [{ pkmn1 := q1.name, pkmn2 := q2.name,
                                    winner := winner.name }]
           pkmn1 := q1
           pkmn2 := q2 }

/-- `sorted(pokemon_list, key=lambda p: p.type_)` (line 116): a stable sort
by the type label; Lean's `mergeSort` is stable, as is Python's `sorted`,
and a stable sort by a key is uniquely determined. -/
def sortedByType (pokemon_list : List Pokemon) : List Pokemon :=
  pokemon_list.mergeSort (fun a b => decide (a.type_ ≤ b.type_))

/-- `itertools.groupby(..., key=lambda p: p.type_)` (line 116): split a list
into maximal runs of consecutive elements sharing the same type label,
each tagged with that label. -/
def runsByType : List Pokemon → List (String × List Pokemon)
  | [] => []
  | p :: ps =>
    match runsByType ps with
    | [] => [(p.type_, [p])]
    | (t, g) :: rest =>
      if p.type_ = t then (t, p :: g) :: rest
      else (p.type_, [p]) :: (t, g) :: rest

/-- `group_by_type` (lines 113-118): group the type-sorted roster by type.
The Python dict built at line 117 is modelled as the association list of
runs; its keys are proved pairwise distinct below, so insertion never
overwrites and lookup agrees with the dict. -/
def group_by_type (pokemon_list : List Pokemon) : List (String × List Pokemon) :=
  runsByType (sortedByType pokemon_list)

/-- All fields of a `Pokemon` except the mutable `hp`, bundled for frame
conditions. -/
def staticFields (p : Pokemon) :
    Int × String × String × Int × Int × Int × List String × String :=
  (p.sort_index, p.name, p.type_, p.attack, p.defense, p.speed, p.moves, p.id)

/-- First entity built by `main` (line 124). -/
def pikachu : Pokemon :=
  mkPokemon 1 "Pikachu" "Electric" 35 55 40 90
    ["Thunderbolt", "Quick Attack", "Iron Tail"]

/-- Second entity built by `main` (line 125). -/
def charmander : Pokemon :=
  mkPokemon 2 "Charmander" "Fire" 39 52 43 65
    ["Flamethrower", "Scratch", "Ember"]

/-- Third entity built by `main` (line 126). -/
def squirtle : Pokemon :=
  mkPokemon 3 "Squirtle" "Water" 44 48 65 43
    ["Water Gun", "Tackle", "Bubble"]

/-- Fourth entity built by `main` (line 127). -/
def bulbasaur : Pokemon :=
  mkPokemon 4 "Bulbasaur" "Grass" 45 49 49 45
    ["Vine Whip", "Tackle", "Seed Bomb"]

theorem damageDealt_ge_one (attacker opponent : Pokemon) :
    1 ≤ damageDealt attacker opponent :=
  le_max_right _ _

theorem receive_damage_hp (p : Pokemon) (d : Int) :
    (receive_damage p d).hp = max (p.hp - d) 0 := rfl

theorem receive_damage_static (p : Pokemon) (d : Int) :
    staticFields (receive_damage p d) = staticFields p := rfl

theorem applyAttack_static (attacker opponent : Pokemon) :
    staticFields (applyAttack attacker opponent) = staticFields opponent := rfl

theorem applyAttack_hp_nonneg (attacker opponent : Pokemon) :
    0 ≤ (applyAttack attacker opponent).hp :=
  le_max_right _ _

theorem applyAttack_hp_lt (attacker opponent : Pokemon) (h : 0 < opponent.hp) :
    (applyAttack attacker opponent).hp < opponent.hp := by
  have h1 := damageDealt_ge_one attacker opponent
  show max (opponent.hp - damageDealt attacker opponent) 0 < opponent.hp
  omega

theorem fdiv_two_eq_ratFloor (d : Int) : Int.fdiv d 2 = ⌊(d : ℚ) / 2⌋ := by
  rw [Int.fdiv_eq_ediv _ (by norm_num)]
  have h := Rat.floor_intCast_div_natCast d 2
  push_cast at h
  omega

/-- C1: the damage dealt by `attack_opponent` is
`max(attacker.attack - floor(defender.defense / 2), 1)` over the integers
(the floor taken as a real floor of the exact quotient), hence always at
least 1, for all integer stat values; on non-empty moves the attack applies
exactly that damage to the opponent. -/
theorem attack_damage_formula (attacker opponent : Pokemon) (pick : Nat)
    (h : attacker.moves ≠ []) :
    attack_opponent attacker opponent pick =
      .ok (attacker.moves.getD (pick % attacker.moves.length) "",
           receive_damage opponent (damageDealt attacker opponent))
    ∧ damageDealt attacker opponent =
        max (attacker.attack - ⌊(opponent.defense : ℚ) / 2⌋) 1
    ∧ 1 ≤ damageDealt attacker opponent := by
  refine ⟨?_, ?_, damageDealt_ge_one _ _⟩
  · simp [attack_opponent, List.isEmpty_iff, h]
  · rw [damageDealt, fdiv_two_eq_ratFloor]

theorem attack_damage_formula_witness :
    (mkPokemon 1 "Pikachu" "Electric" 35 55 40 90 ["Thunderbolt"]).moves ≠ [] ∧
    (attack_opponent (mkPokemon 1 "Pikachu" "Electric" 35 55 40 90 ["Thunderbolt"])
        (mkPokemon 2 "Charmander" "Fire" 39 52 43 65 ["Ember"]) 0 =
      .ok ("Thunderbolt",
           receive_damage (mkPokemon 2 "Charmander" "Fire" 39 52 43 65 ["Ember"])
             (damageDealt (mkPokemon 1 "Pikachu" "Electric" 35 55 40 90 ["Thunderbolt"])
               (mkPokemon 2 "Charmander" "Fire" 39 52 43 65 ["Ember"])))
     ∧ damageDealt (mkPokemon 1 "Pikachu" "Electric" 35 55 40 90 ["Thunderbolt"])
         (mkPokemon 2 "Charmander" "Fire" 39 52 43 65 ["Ember"]) =
        max ((mkPokemon 1 "Pikachu" "Electric" 35 55 40 90 ["Thunderbolt"]).attack -
          ⌊((mkPokemon 2 "Charmander" "Fire" 39 52 43 65 ["Ember"]).defense : ℚ) / 2⌋) 1
     ∧ 1 ≤ damageDealt (mkPokemon 1 "Pikachu" "Electric" 35 55 40 90 ["Thunderbolt"])
         (mkPokemon 2 "Charmander" "Fire" 39 52 43 65 ["Ember"])) :=
  ⟨by decide, attack_damage_formula _ _ 0 (by decide)⟩

/-- C5: `receive_damage` sets `hp` to `max(old_hp - d, 0)`, which is never
negative. -/
theorem receive_damage_clamps (p : Pokemon) (d : Int) (h : 0 ≤ d) :
    (receive_damage p d).hp = max (p.hp - d) 0 ∧ 0 ≤ (receive_damage p d).hp :=
  ⟨rfl, le_max_right _ _⟩

theorem receive_damage_clamps_witness :
    (0 : Int) ≤ 50 ∧
    ((receive_damage (mkPokemon 1 "Pikachu" "Electric" 35 55 40 90 ["Thunderbolt"]) 50).hp =
        max ((mkPokemon 1 "Pikachu" "Electric" 35 55 40 90 ["Thunderbolt"]).hp - 50) 0
      ∧ 0 ≤ (receive_damage (mkPokemon 1 "Pikachu" "Electric" 35 55 40 90 ["Thunderbolt"]) 50).hp) :=
  ⟨by decide, receive_damage_clamps _ 50 (by decide)⟩

/-- C9: attack resolution fails (with the spec's `InvalidState`) exactly
when the attacker's move list is empty; on a non-empty move list it
succeeds, the selected move being returned only for display while the
opponent's new state is `applyAttack`, independent of the selection. -/
theorem attack_invalid_state (attacker opponent : Pokemon) (pick : Nat) :
    (attack_opponent attacker opponent pick = .error .invalidState ↔ attacker.moves = [])
    ∧ (attacker.moves ≠ [] →
        ∃ move, attack_opponent attacker opponent pick =
          .ok (move, applyAttack attacker opponent)) := by
  constructor
  · constructor
    · intro h
      by_contra hne
      simp [attack_opponent, List.isEmpty_iff, hne] at h
    · intro h
      simp [attack_opponent, List.isEmpty_iff, h]
  · intro h
    exact ⟨attacker.moves.getD (pick % attacker.moves.length) "",
      by simp [attack_opponent, List.isEmpty_iff, h, applyAttack]⟩

theorem attack_invalid_state_witness :
    ((attack_opponent (mkPokemon 1 "Pikachu" "Electric" 35 55 40 90 [])
        (mkPokemon 2 "Charmander" "Fire" 39 52 43 65 ["Ember"]) 0 =
        .error .invalidState ↔
      (mkPokemon 1 "Pikachu" "Electric" 35 55 40 90 []).moves = [])
    ∧ ((mkPokemon 1 "Pikachu" "Electric" 35 55 40 90 []).moves ≠ [] →
        ∃ move, attack_opponent (mkPokemon 1 "Pikachu" "Electric" 35 55 40 90 [])
            (mkPokemon 2 "Charmander" "Fire" 39 52 43 65 ["Ember"]) 0 =
          .ok (move, applyAttack (mkPokemon 1 "Pikachu" "Electric" 35 55 40 90 [])
            (mkPokemon 2 "Charmander" "Fire" 39 52 43 65 ["Ember"])))) :=
  attack_invalid_state _ _ 0

/-! ### The battle loop -/

theorem battleGo_stop (fuel : Nat) (p1 p2 : Pokemon)
    (h : ¬(0 < p1.hp ∧ 0 < p2.hp)) :
    battleGo fuel p1 p2 = some (p1, p2) := by
  rw [battleGo.eq_def]
  simp [h]

theorem battleGo_zero (p1 p2 : Pokemon) (h : 0 < p1.hp ∧ 0 < p2.hp) :
    battleGo 0 p1 p2 = none := by
  rw [battleGo]
  simp [h]

theorem battleGo_succ_fast (fuel : Nat) (p1 p2 : Pokemon)
    (h : 0 < p1.hp ∧ 0 < p2.hp) (hs : p2.speed ≤ p1.speed) :
    battleGo (fuel + 1) p1 p2 =
      if (applyAttack p1 p2).hp ≤ 0 then some (p1, applyAttack p1 p2)
      else battleGo fuel (applyAttack (applyAttack p1 p2) p1) (applyAttack p1 p2) := by
  rw [battleGo]
  simp [h, hs]

theorem battleGo_succ_slow (fuel : Nat) (p1 p2 : Pokemon)
    (h : 0 < p1.hp ∧ 0 < p2.hp) (hs : ¬ p2.speed ≤ p1.speed) :
    battleGo (fuel + 1) p1 p2 =
      if (applyAttack p2 p1).hp ≤ 0 then some (applyAttack p2 p1, p2)
      else battleGo fuel (applyAttack p2 p1) (applyAttack (applyAttack p2 p1) p2) := by
  rw [battleGo]
  simp [h, hs]

theorem battleGo_isSome (fuel : Nat) :
    ∀ p1 p2 : Pokemon, p1.hp.toNat + p2.hp.toNat ≤ fuel →
      (battleGo fuel p1 p2).isSome := by
  induction fuel with
  | zero =>
    intro p1 p2 hle
    rw [battleGo_stop _ _ _ (by omega)]
    rfl
  | succ fuel ih =>
    intro p1 p2 hle
    by_cases hc : 0 < p1.hp ∧ 0 < p2.hp
    · by_cases hs : p2.speed ≤ p1.speed
      · rw [battleGo_succ_fast _ _ _ hc hs]
        by_cases hk : (applyAttack p1 p2).hp ≤ 0
        · simp [hk]
        · simp only [hk, if_false]
          apply ih
          have h2 := applyAttack_hp_lt p1 p2 hc.2
          have h2' := applyAttack_hp_nonneg p1 p2
          have h1 := applyAttack_hp_lt (applyAttack p1 p2) p1 hc.1
          have h1' := applyAttack_hp_nonneg (applyAttack p1 p2) p1
          omega
      · rw [battleGo_succ_slow _ _ _ hc hs]
        by_cases hk : (applyAttack p2 p1).hp ≤ 0
        · simp [hk]
        · simp only [hk, if_false]
          apply ih
          have h1 := applyAttack_hp_lt p2 p1 hc.1
          have h1' := applyAttack_hp_nonneg p2 p1
          have h2 := applyAttack_hp_lt (applyAttack p2 p1) p2 hc.2
          have h2' := applyAttack_hp_nonneg (applyAttack p2 p1) p2
          omega
    · rw [battleGo_stop _ _ _ hc]
      rfl

theorem battleGo_exit (fuel : Nat) :
    ∀ p1 p2 q1 q2 : Pokemon, (0 < p1.hp ∨ 0 < p2.hp) →
      battleGo fuel p1 p2 = some (q1, q2) →
      (0 < q1.hp ∧ q2.hp ≤ 0) ∨ (q1.hp ≤ 0 ∧ 0 < q2.hp) := by
  induction fuel with
  | zero =>
    intro p1 p2 q1 q2 hor hgo
    by_cases hc : 0 < p1.hp ∧ 0 < p2.hp
    · rw [battleGo_zero _ _ hc] at hgo
      exact absurd hgo (by simp)
    · rw [battleGo_stop _ _ _ hc] at hgo
      obtain ⟨rfl, rfl⟩ := Prod.mk.injEq .. ▸ Option.some.injEq .. ▸ hgo
      omega
  | succ fuel ih =>
    intro p1 p2 q1 q2 hor hgo
    by_cases hc : 0 < p1.hp ∧ 0 < p2.hp
    · by_cases hs : p2.speed ≤ p1.speed
      · rw [battleGo_succ_fast _ _ _ hc hs] at hgo
        by_cases hk : (applyAttack p1 p2).hp ≤ 0
        · simp only [hk, if_true] at hgo
          obtain ⟨rfl, rfl⟩ := Prod.mk.injEq .. ▸ Option.some.injEq .. ▸ hgo
          exact Or.inl ⟨hc.1, hk⟩
        · simp only [hk, if_false] at hgo
          exact ih _ _ _ _ (Or.inr (by omega)) hgo
      · rw [battleGo_succ_slow _ _ _ hc hs] at hgo
        by_cases hk : (applyAttack p2 p1).hp ≤ 0
        · simp only [hk, if_true] at hgo
          obtain ⟨rfl, rfl⟩ := Prod.mk.injEq .. ▸ Option.some.injEq .. ▸ hgo
          exact Or.inr ⟨hk, hc.2⟩
        · simp only [hk, if_false] at hgo
          exact ih _ _ _ _ (Or.inl (by omega)) hgo
    · rw [battleGo_stop _ _ _ hc] at hgo
      obtain ⟨rfl, rfl⟩ := Prod.mk.injEq .. ▸ Option.some.injEq .. ▸ hgo
      omega

theorem battleGo_static (fuel : Nat) :
    ∀ p1 p2 q1 q2 : Pokemon, battleGo fuel p1 p2 = some (q1, q2) →
      staticFields q1 = staticFields p1 ∧ staticFields q2 = staticFields p2 := by
  induction fuel with
  | zero =>
    intro p1 p2 q1 q2 hgo
    by_cases hc : 0 < p1.hp ∧ 0 < p2.hp
    · rw [battleGo_zero _ _ hc] at hgo
      exact absurd hgo (by simp)
    · rw [battleGo_stop _ _ _ hc] at hgo
      obtain ⟨rfl, rfl⟩ := Prod.mk.injEq .. ▸ Option.some.injEq .. ▸ hgo
      exact ⟨rfl, rfl⟩
  | succ fuel ih =>
    intro p1 p2 q1 q2 hgo
    by_cases hc : 0 < p1.hp ∧ 0 < p2.hp
    · by_cases hs : p2.speed ≤ p1.speed
      · rw [battleGo_succ_fast _ _ _ hc hs] at hgo
        by_cases hk : (applyAttack p1 p2).hp ≤ 0
        · simp only [hk, if_true] at hgo
          obtain ⟨rfl, rfl⟩ := Prod.mk.injEq .. ▸ Option.some.injEq .. ▸ hgo
          exact ⟨rfl, applyAttack_static _ _⟩
        · simp only [hk, if_false] at hgo
          obtain ⟨e1, e2⟩ := ih _ _ _ _ hgo
          simp only [applyAttack_static] at e1 e2
          exact ⟨e1, e2⟩
      · rw [battleGo_succ_slow _ _ _ hc hs] at hgo
        by_cases hk : (applyAttack p2 p1).hp ≤ 0
        · simp only [hk, if_true] at hgo
          obtain ⟨rfl, rfl⟩ := Prod.mk.injEq .. ▸ Option.some.injEq .. ▸ hgo
          exact ⟨applyAttack_static _ _, rfl⟩
        · simp only [hk, if_false] at hgo
          obtain ⟨e1, e2⟩ := ih _ _ _ _ hgo
          simp only [applyAttack_static] at e1 e2
          exact ⟨e1, e2⟩
    · rw [battleGo_stop _ _ _ hc] at hgo
      obtain ⟨rfl, rfl⟩ := Prod.mk.injEq .. ▸ Option.some.injEq .. ▸ hgo
      exact ⟨rfl, rfl⟩

theorem staticFields_eq {p q : Pokemon} (h : staticFields p = staticFields q) :
    p.sort_index = q.sort_index ∧ p.name = q.name ∧ p.type_ = q.type_ ∧
    p.attack = q.attack ∧ p.defense = q.defense ∧ p.speed = q.speed ∧
    p.moves = q.moves ∧ p.id = q.id := by
  simpa [staticFields, Prod.ext_iff] using h

/-- C2: from any pair of entities with strictly positive hp, the battle
loop terminates — any fuel of at least `hp1 + hp2` exchanges suffices,
because every attack deals at least 1 damage, so some entity's hp strictly
decreases in every exchange — and `battle` returns an outcome. -/
theorem battle_terminates (history : List BattleRecord) (p1 p2 : Pokemon)
    (fuel : Nat) (h1 : 0 < p1.hp) (h2 : 0 < p2.hp)
    (hfuel : p1.hp.toNat + p2.hp.toNat ≤ fuel) :
    ∃ out, battle history p1 p2 fuel = some out := by
  have hsome := battleGo_isSome fuel p1 p2 hfuel
  obtain ⟨⟨q1, q2⟩, hq⟩ := Option.isSome_iff_exists.mp hsome
  unfold battle
  rw [hq]
  exact ⟨_, rfl⟩

theorem battle_terminates_witness :
    0 < pikachu.hp ∧ 0 < charmander.hp ∧
    pikachu.hp.toNat + charmander.hp.toNat ≤ 74 ∧
    ∃ out, battle [] pikachu charmander 74 = some out :=
  ⟨by decide, by decide, by decide,
    battle_terminates [] pikachu charmander 74 (by decide) (by decide) (by decide)⟩

/-- C3: starting from strictly positive hp on both sides, when the loop
exits exactly one entity has `hp > 0`, and `battle` returns that entity's
name, which is the name of one of the two inputs. -/
theorem battle_winner (history : List BattleRecord) (p1 p2 : Pokemon)
    (fuel : Nat) (out : BattleOutcome)
    (h1 : 0 < p1.hp) (h2 : 0 < p2.hp)
    (hb : battle history p1 p2 fuel = some out) :
    (0 < out.pkmn1.hp ∧ out.pkmn2.hp ≤ 0 ∧
      out.winnerName = out.pkmn1.name ∧ out.pkmn1.name = p1.name)
    ∨ (out.pkmn1.hp ≤ 0 ∧ 0 < out.pkmn2.hp ∧
      out.winnerName = out.pkmn2.name ∧ out.pkmn2.name = p2.name) := by
  rw [battle] at hb
  cases hgo : battleGo fuel p1 p2 with
  | none => rw [hgo] at hb; exact absurd hb (by simp)
  | some q =>
    obtain ⟨q1, q2⟩ := q
    rw [hgo] at hb
    obtain ⟨e1, e2⟩ := battleGo_static fuel p1 p2 q1 q2 hgo
    have hn1 := (staticFields_eq e1).2.1
    have hn2 := (staticFields_eq e2).2.1
    rcases battleGo_exit fuel p1 p2 q1 q2 (Or.inl h1) hgo with hcase | hcase
    · left
      have hif : (if 0 < q1.hp then q1 else q2) = q1 := if_pos hcase.1
      simp only [hif] at hb
      obtain rfl := Option.some.injEq .. ▸ hb
      exact ⟨hcase.1, hcase.2, rfl, hn1⟩
    · right
      have hif : (if 0 < q1.hp then q1 else q2) = q2 := if_neg (by omega)
      simp only [hif] at hb
      obtain rfl := Option.some.injEq .. ▸ hb
      exact ⟨hcase.1, hcase.2, rfl, hn2⟩

theorem battle_winner_witness :
    0 < pikachu.hp ∧ 0 < charmander.hp ∧
    battle [] pikachu charmander 74 =
      some { winnerName := "Pikachu",
             history := [{ pkmn1 := "Pikachu", pkmn2 := "Charmander",
                           winner := "Pikachu" }],
             pkmn1 := { pikachu with hp := 3 },
             pkmn2 := { charmander with hp := 0 } } ∧
    ((0 < (BattleOutcome.mk "Pikachu"
          [{ pkmn1 := "Pikachu", pkmn2 := "Charmander", winner := "Pikachu" }]
          { pikachu with hp := 3 } { charmander with hp := 0 }).pkmn1.hp ∧
      (BattleOutcome.mk "Pikachu"
          [{ pkmn1 := "Pikachu", pkmn2 := "Charmander", winner := "Pikachu" }]
          { pikachu with hp := 3 } { charmander with hp := 0 }).pkmn2.hp ≤ 0 ∧
      (BattleOutcome.mk "Pikachu"
          [{ pkmn1 := "Pikachu", pkmn2 := "Charmander", winner := "Pikachu" }]
          { pikachu with hp := 3 } { charmander with hp := 0 }).winnerName =
        (BattleOutcome.mk "Pikachu"
          [{ pkmn1 := "Pikachu", pkmn2 := "Charmander", winner := "Pikachu" }]
          { pikachu with hp := 3 } { charmander with hp := 0 }).pkmn1.name ∧
      (BattleOutcome.mk "Pikachu"
          [{ pkmn1 := "Pikachu", pkmn2 := "Charmander", winner := "Pikachu" }]
          { pikachu with hp := 3 } { charmander with hp := 0 }).pkmn1.name =
        pikachu.name)
    ∨ ((BattleOutcome.mk "Pikachu"
          [{ pkmn1 := "Pikachu", pkmn2 := "Charmander", winner := "Pikachu" }]
          { pikachu with hp := 3 } { charmander with hp := 0 }).pkmn1.hp ≤ 0 ∧
      0 < (BattleOutcome.mk "Pikachu"
          [{ pkmn1 := "Pikachu", pkmn2 := "Charmander", winner := "Pikachu" }]
          { pikachu with hp := 3 } { charmander with hp := 0 }).pkmn2.hp ∧
      (BattleOutcome.mk "Pikachu"
          [{ pkmn1 := "Pikachu", pkmn2 := "Charmander", winner := "Pikachu" }]
          { pikachu with hp := 3 } { charmander with hp := 0 }).winnerName =
        (BattleOutcome.mk "Pikachu"
          [{ pkmn1 := "Pikachu", pkmn2 := "Charmander", winner := "Pikachu" }]
          { pikachu with hp := 3 } { charmander with hp := 0 }).pkmn2.name ∧
      (BattleOutcome.mk "Pikachu"
          [{ pkmn1 := "Pikachu", pkmn2 := "Charmander", winner := "Pikachu" }]
          { pikachu with hp := 3 } { charmander with hp := 0 }).pkmn2.name =
        charmander.name)) :=
  ⟨by decide, by decide, by decide,
    battle_winner [] pikachu charmander 74 _ (by decide) (by decide) (by decide)⟩

/-- C4: in every round entered with both hp positive, the entity whose
speed is `>=` the other's attacks first, ties going to the first-listed
entity; if that first attack drops the defender to 0 the round ends
immediately with no counter-attack, otherwise the other entity
counter-attacks before the loop condition is re-evaluated. -/
theorem battle_round (fuel : Nat) (p1 p2 : Pokemon)
    (h1 : 0 < p1.hp) (h2 : 0 < p2.hp) :
    (p2.speed ≤ p1.speed → (applyAttack p1 p2).hp ≤ 0 →
       battleGo (fuel + 1) p1 p2 = some (p1, applyAttack p1 p2))
    ∧ (p2.speed ≤ p1.speed → 0 < (applyAttack p1 p2).hp →
       battleGo (fuel + 1) p1 p2 =
         battleGo fuel (applyAttack (applyAttack p1 p2) p1) (applyAttack p1 p2))
    ∧ (p1.speed < p2.speed → (applyAttack p2 p1).hp ≤ 0 →
       battleGo (fuel + 1) p1 p2 = some (applyAttack p2 p1, p2))
    ∧ (p1.speed < p2.speed → 0 < (applyAttack p2 p1).hp →
       battleGo (fuel + 1) p1 p2 =
         battleGo fuel (applyAttack p2 p1) (applyAttack (applyAttack p2 p1) p2)) := by
  refine ⟨?_, ?_, ?_, ?_⟩
  · intro hs hk
    rw [battleGo_succ_fast fuel p1 p2 ⟨h1, h2⟩ hs, if_pos hk]
  · intro hs hk
    rw [battleGo_succ_fast fuel p1 p2 ⟨h1, h2⟩ hs, if_neg (by omega)]
  · intro hs hk
    rw [battleGo_succ_slow fuel p1 p2 ⟨h1, h2⟩ (by omega), if_pos hk]
  · intro hs hk
    rw [battleGo_succ_slow fuel p1 p2 ⟨h1, h2⟩ (by omega), if_neg (by omega)]

theorem battle_round_witness :
    0 < pikachu.hp ∧ 0 < charmander.hp ∧
    ((charmander.speed ≤ pikachu.speed → (applyAttack pikachu charmander).hp ≤ 0 →
       battleGo 6 pikachu charmander = some (pikachu, applyAttack pikachu charmander))
    ∧ (charmander.speed ≤ pikachu.speed → 0 < (applyAttack pikachu charmander).hp →
       battleGo 6 pikachu charmander =
         battleGo 5 (applyAttack (applyAttack pikachu charmander) pikachu)
           (applyAttack pikachu charmander))
    ∧ (pikachu.speed < charmander.speed → (applyAttack charmander pikachu).hp ≤ 0 →
       battleGo 6 pikachu charmander = some (applyAttack charmander pikachu, charmander))
    ∧ (pikachu.speed < charmander.speed → 0 < (applyAttack charmander pikachu).hp →
       battleGo 6 pikachu charmander =
         battleGo 5 (applyAttack charmander pikachu)
           (applyAttack (applyAttack charmander pikachu) charmander))) :=
  ⟨by decide, by decide, battle_round 5 pikachu charmander (by decide) (by decide)⟩

/-- C6: every resolved battle appends exactly one record
`{pkmn1 := nameA, pkmn2 := nameB, winner := winnerName}` to the history
and leaves every previously appended record unchanged. -/
theorem battle_history_append (history : List BattleRecord) (p1 p2 : Pokemon)
    (fuel : Nat) (out : BattleOutcome)
    (hb : battle history p1 p2 fuel = some out) :
    out.history = history ++
      [{ pkmn1 := p1.name, pkmn2 := p2.name, winner := out.winnerName }]
    ∧ out.history.take history.length = history
    ∧ out.history.length = history.length + 1 := by
  rw [battle] at hb
  cases hgo : battleGo fuel p1 p2 with
  | none => rw [hgo] at hb; exact absurd hb (by simp)
  | some q =>
    obtain ⟨q1, q2⟩ := q
    rw [hgo] at hb
    obtain ⟨e1, e2⟩ := battleGo_static fuel p1 p2 q1 q2 hgo
    have hn1 := (staticFields_eq e1).2.1
    have hn2 := (staticFields_eq e2).2.1
    obtain rfl := Option.some.injEq .. ▸ hb
    refine ⟨by simp [hn1, hn2], ?_, by simp⟩
    simp only [List.take_left]

theorem battle_history_append_witness :
    battle [{ pkmn1 := "Old", pkmn2 := "Older", winner := "Old" }]
        pikachu charmander 74 =
      some { winnerName := "Pikachu",
             history := [{ pkmn1 := "Old", pkmn2 := "Older", winner := "Old" },
                         { pkmn1 := "Pikachu", pkmn2 := "Charmander",
                           winner := "Pikachu" }],
             pkmn1 := { pikachu with hp := 3 },
             pkmn2 := { charmander with hp := 0 } } ∧
    ((BattleOutcome.mk "Pikachu"
        [{ pkmn1 := "Old", pkmn2 := "Older", winner := "Old" },
         { pkmn1 := "Pikachu", pkmn2 := "Charmander", winner := "Pikachu" }]
        { pikachu with hp := 3 } { charmander with hp := 0 }).history =
      [{ pkmn1 := "Old", pkmn2 := "Older", winner := "Old" }] ++
        [{ pkmn1 := pikachu.name, pkmn2 := charmander.name,
           winner := (BattleOutcome.mk "Pikachu"
             [{ pkmn1 := "Old", pkmn2 := "Older", winner := "Old" },
              { pkmn1 := "Pikachu", pkmn2 := "Charmander", winner := "Pikachu" }]
             { pikachu with hp := 3 } { charmander with hp := 0 }).winnerName }]
    ∧ (BattleOutcome.mk "Pikachu"
        [{ pkmn1 := "Old", pkmn2 := "Older", winner := "Old" },
         { pkmn1 := "Pikachu", pkmn2 := "Charmander", winner := "Pikachu" }]
        { pikachu with hp := 3 } { charmander with hp := 0 }).history.take
          ([{ pkmn1 := "Old", pkmn2 := "Older", winner := "Old" }] :
            List BattleRecord).length =
        [{ pkmn1 := "Old", pkmn2 := "Older", winner := "Old" }]
    ∧ (BattleOutcome.mk "Pikachu"
        [{ pkmn1 := "Old", pkmn2 := "Older", winner := "Old" },
         { pkmn1 := "Pikachu", pkmn2 := "Charmander", winner := "Pikachu" }]
        { pikachu with hp := 3 } { charmander with hp := 0 }).history.length =
        ([{ pkmn1 := "Old", pkmn2 := "Older", winner := "Old" }] :
            List BattleRecord).length + 1) :=
  ⟨by decide,
    battle_history_append [{ pkmn1 := "Old", pkmn2 := "Older", winner := "Old" }]
      pikachu charmander 74 _ (by decide)⟩

/-- C10: damage application, attack resolution and the battle loop change
only the `hp` field — `sort_index`, `name`, `type_`, `attack`, `defense`,
`speed`, `moves` and `id` are all preserved (bundled in `staticFields`) —
and the `sort_index` set at construction time stays equal to the
creation-time hp even after damage, so it can desynchronize from the
current hp. -/
theorem mutation_frame (p attacker : Pokemon) (d : Int)
    (fuel : Nat) (p1 p2 q1 q2 : Pokemon)
    (counter : Nat) (name type_ : String) (hp atk dfn spd : Int)
    (moves : List String)
    (hgo : battleGo fuel p1 p2 = some (q1, q2)) :
    staticFields (receive_damage p d) = staticFields p
    ∧ staticFields (applyAttack attacker p) = staticFields p
    ∧ staticFields q1 = staticFields p1 ∧ staticFields q2 = staticFields p2
    ∧ (mkPokemon counter name type_ hp atk dfn spd moves).sort_index = hp
    ∧ (receive_damage (mkPokemon counter name type_ hp atk dfn spd moves) d).sort_index = hp
    ∧ (receive_damage pikachu 5).sort_index ≠ (receive_damage pikachu 5).hp := by
  obtain ⟨e1, e2⟩ := battleGo_static fuel p1 p2 q1 q2 hgo
  exact ⟨rfl, rfl, e1, e2, rfl, rfl, by decide⟩

theorem mutation_frame_witness :
    battleGo 74 pikachu charmander =
      some ({ pikachu with hp := 3 }, { charmander with hp := 0 }) ∧
    (staticFields (receive_damage squirtle 7) = staticFields squirtle
    ∧ staticFields (applyAttack bulbasaur squirtle) = staticFields squirtle
    ∧ staticFields { pikachu with hp := 3 } = staticFields pikachu
    ∧ staticFields { charmander with hp := 0 } = staticFields charmander
    ∧ (mkPokemon 9 "Eevee" "Normal" 55 55 50 55 ["Tackle"]).sort_index = 55
    ∧ (receive_damage (mkPokemon 9 "Eevee" "Normal" 55 55 50 55 ["Tackle"]) 7).sort_index = 55
    ∧ (receive_damage pikachu 5).sort_index ≠ (receive_damage pikachu 5).hp) :=
  ⟨by decide,
    mutation_frame squirtle bulbasaur 7 74 pikachu charmander
      { pikachu with hp := 3 } { charmander with hp := 0 }
      9 "Eevee" "Normal" 55 55 50 55 ["Tackle"] (by decide)⟩

/-! ### Statistics -/

theorem runsByType_flatten : ∀ l : List Pokemon,
    ((runsByType l).map Prod.snd).flatten = l := by
  intro l
  induction l with
  | nil => rfl
  | cons p ps ih =>
    simp only [runsByType]
    cases hr : runsByType ps with
    | nil =>
      rw [hr] at ih
      simp only [List.map_nil, List.flatten_nil] at ih
      simp [← ih]
    | cons tg rest =>
      obtain ⟨t, g⟩ := tg
      rw [hr] at ih
      simp only [List.map_cons, List.flatten_cons] at ih
      by_cases hpt : p.type_ = t
      · simp only [if_pos hpt, List.map_cons, List.flatten_cons, List.cons_append, ih]
      · simp only [if_neg hpt, List.map_cons, List.flatten_cons, List.cons_append,
          List.nil_append, ih]

theorem runsByType_ne_nil (p : Pokemon) (ps : List Pokemon) :
    runsByType (p :: ps) ≠ [] := by
  simp only [runsByType]
  cases runsByType ps with
  | nil => simp
  | cons tg rest =>
    obtain ⟨t, g⟩ := tg
    by_cases hpt : p.type_ = t
    · simp [if_pos hpt]
    · simp [if_neg hpt]

theorem runsByType_cons_head (p : Pokemon) (ps : List Pokemon) :
    ∃ g rest, runsByType (p :: ps) = (p.type_, g) :: rest := by
  simp only [runsByType]
  cases runsByType ps with
  | nil => exact ⟨[p], [], rfl⟩
  | cons tg rest =>
    obtain ⟨t, g⟩ := tg
    by_cases hpt : p.type_ = t
    · exact ⟨p :: g, rest, by simp [if_pos hpt, hpt]⟩
    · exact ⟨[p], (t, g) :: rest, by simp [if_neg hpt]⟩

theorem runsByType_keys_sorted : ∀ l : List Pokemon,
    List.Pairwise (fun a b => a.type_ ≤ b.type_) l →
    List.Pairwise (fun s t => s < t) ((runsByType l).map Prod.fst) := by
  intro l
  induction l with
  | nil =>
    intro _
    simp [runsByType]
  | cons p ps ih =>
    intro hs
    obtain ⟨hp, hps⟩ := List.pairwise_cons.mp hs
    have ihps := ih hps
    simp only [runsByType]
    cases hr : runsByType ps with
    | nil => simp
    | cons tg rest =>
      obtain ⟨t, g⟩ := tg
      rw [hr] at ihps
      simp only [List.map_cons] at ihps
      have hps_ne : ps ≠ [] := by
        intro hnil
        rw [hnil] at hr
        exact absurd hr (by simp [runsByType])
      obtain ⟨q, ps', rfl⟩ : ∃ q ps', ps = q :: ps' := by
        cases ps with
        | nil => exact absurd rfl hps_ne
        | cons q ps' => exact ⟨q, ps', rfl⟩
      obtain ⟨g', rest', hhead⟩ := runsByType_cons_head q ps'
      rw [hr] at hhead
      simp only [List.cons.injEq, Prod.mk.injEq] at hhead
      have ht : t = q.type_ := hhead.1.1
      have hle : p.type_ ≤ t := ht ▸ hp q (List.mem_cons_self _ _)
      by_cases hpt : p.type_ = t
      · simp only [if_pos hpt, List.map_cons]
        exact ihps
      · simp only [if_neg hpt, List.map_cons]
        refine List.Pairwise.cons ?_ ihps
        intro k hk
        have hlt : p.type_ < t := lt_of_le_of_ne hle hpt
        rcases List.mem_cons.mp hk with rfl | hk
        · exact hlt
        · exact lt_trans hlt ((List.pairwise_cons.mp ihps).1 k hk)

theorem runsByType_filter : ∀ l : List Pokemon,
    List.Pairwise (fun a b => a.type_ ≤ b.type_) l →
    ∀ t g, (t, g) ∈ runsByType l →
      g = l.filter (fun q => q.type_ == t) := by
  intro l
  induction l with
  | nil =>
    intro _ t g hmem
    simp [runsByType] at hmem
  | cons p ps ih =>
    intro hs t g hmem
    obtain ⟨hp, hps⟩ := List.pairwise_cons.mp hs
    simp only [runsByType] at hmem
    cases hr : runsByType ps with
    | nil =>
      rw [hr] at hmem
      have hps_nil : ps = [] := by
        have hfl := runsByType_flatten ps
        rw [hr] at hfl
        simpa using hfl.symm
      subst hps_nil
      simp only [List.mem_singleton, Prod.mk.injEq] at hmem
      obtain ⟨rfl, rfl⟩ := hmem
      simp
    | cons tg rest =>
      obtain ⟨t0, g0⟩ := tg
      rw [hr] at hmem
      have hps_ne : ps ≠ [] := by
        intro hnil
        rw [hnil] at hr
        exact absurd hr (by simp [runsByType])
      obtain ⟨q, ps', rfl⟩ : ∃ q ps', ps = q :: ps' := by
        cases ps with
        | nil => exact absurd rfl hps_ne
        | cons q ps' => exact ⟨q, ps', rfl⟩
      obtain ⟨g', rest', hhead⟩ := runsByType_cons_head q ps'
      rw [hr] at hhead
      simp only [List.cons.injEq, Prod.mk.injEq] at hhead
      have ht0 : t0 = q.type_ := hhead.1.1
      have hle : p.type_ ≤ t0 := ht0 ▸ hp q (List.mem_cons_self _ _)
      have hkeys := runsByType_keys_sorted (q :: ps') hps
      rw [hr] at hkeys
      simp only [List.map_cons] at hkeys
      have hk0 := (List.pairwise_cons.mp hkeys).1
      have hmem2 : (t, g) ∈
          (if p.type_ = t0 then ((t0, p :: g0) :: rest)
           else ((p.type_, [p]) :: (t0, g0) :: rest)) := hmem
      by_cases hpt : p.type_ = t0
      · rw [if_pos hpt] at hmem2
        rcases List.mem_cons.mp hmem2 with heq | hmem'
        · simp only [Prod.mk.injEq] at heq
          obtain ⟨rfl, rfl⟩ := heq
          have hg0 : g0 = (q :: ps').filter (fun r => r.type_ == t) :=
            ih hps t g0 (by rw [hr]; exact List.mem_cons_self _ _)
          rw [List.filter_cons_of_pos (by simpa using hpt), hg0]
        · have hmemps : (t, g) ∈ runsByType (q :: ps') := by
            rw [hr]
            exact List.mem_cons.mpr (Or.inr hmem')
          have hg := ih hps t g hmemps
          have htk : t ∈ rest.map Prod.fst :=
            List.mem_map.mpr ⟨(t, g), hmem', rfl⟩
          have hlt : t0 < t := hk0 t htk
          have hne : p.type_ ≠ t := by
            rw [hpt]
            exact ne_of_lt hlt
          rw [List.filter_cons_of_neg (by simpa using hne)]
          exact hg
      · rw [if_neg hpt] at hmem2
        have hlt : p.type_ < t0 := lt_of_le_of_ne hle hpt
        rcases List.mem_cons.mp hmem2 with heq | hmem'
        · simp only [Prod.mk.injEq] at heq
          obtain ⟨rfl, rfl⟩ := heq
          rw [List.filter_cons_of_pos (by simp)]
          have hnil : (q :: ps').filter (fun r => r.type_ == p.type_) = [] := by
            rw [List.filter_eq_nil_iff]
            intro r hrmem
            have hge : t0 ≤ r.type_ := by
              rcases List.mem_cons.mp hrmem with rfl | hr'
              · exact le_of_eq ht0
              · exact ht0 ▸ (List.pairwise_cons.mp hps).1 r hr'
            simp only [beq_iff_eq]
            intro hcontra
            rw [hcontra] at hge
            exact absurd hge (not_le.mpr hlt)
          rw [hnil]
        · have hmemps : (t, g) ∈ runsByType (q :: ps') := by
            rw [hr]
            exact hmem'
          have hg := ih hps t g hmemps
          have hget0 : t0 ≤ t := by
            rcases List.mem_cons.mp hmem' with heq2 | hmem''
            · simp only [Prod.mk.injEq] at heq2
              exact le_of_eq heq2.1.symm
            · exact le_of_lt (hk0 t (List.mem_map.mpr ⟨(t, g), hmem'', rfl⟩))
          have hne : p.type_ ≠ t := ne_of_lt (lt_of_lt_of_le hlt hget0)
          rw [List.filter_cons_of_neg (by simpa using hne)]
          exact hg

theorem sortedByType_pairwise (l : List Pokemon) :
    List.Pairwise (fun a b => a.type_ ≤ b.type_) (sortedByType l) := by
  have htrans : ∀ a b c : Pokemon, (decide (a.type_ ≤ b.type_)) = true →
      (decide (b.type_ ≤ c.type_)) = true → (decide (a.type_ ≤ c.type_)) = true := by
    intro a b c hab hbc
    simp only [decide_eq_true_eq] at hab hbc ⊢
    exact le_trans hab hbc
  have htotal : ∀ a b : Pokemon,
      ((decide (a.type_ ≤ b.type_)) || (decide (b.type_ ≤ a.type_))) = true := by
    intro a b
    rcases le_total a.type_ b.type_ with h | h <;> simp [h]
  have hs := List.sorted_mergeSort htrans htotal l
  exact hs.imp (fun hab => by simpa using hab)

theorem sortedByType_perm (l : List Pokemon) : (sortedByType l).Perm l :=
  List.mergeSort_perm l _

/-- C8: `group_by_type` partitions the roster by exact equality of the type
label: the groups' members joined together are a permutation of the roster
(equal to it as a multiset, hence as a set), the group keys are pairwise
distinct, every member of a group carries the group's key as its type and
each group lists, in order, exactly the entities of that type in the
type-sorted view of the roster, and every entity of the roster occurs in
the group keyed by its own type (by key distinctness, in exactly that
one group). -/
theorem group_by_type_partition (l : List Pokemon) :
    (((group_by_type l).map Prod.snd).flatten).Perm l
    ∧ ((group_by_type l).map Prod.fst).Nodup
    ∧ (∀ t g, (t, g) ∈ group_by_type l →
        (∀ p ∈ g, p.type_ = t) ∧
        g = (sortedByType l).filter (fun q => q.type_ == t))
    ∧ (∀ p ∈ l, ∃ g, (p.type_, g) ∈ group_by_type l ∧ p ∈ g) := by
  have hsorted := sortedByType_pairwise l
  have hperm := sortedByType_perm l
  have hflat : ((group_by_type l).map Prod.snd).flatten = sortedByType l :=
    runsByType_flatten (sortedByType l)
  have hfilter := runsByType_filter (sortedByType l) hsorted
  refine ⟨?_, ?_, ?_, ?_⟩
  · rw [hflat]
    exact hperm
  · have hkeys := runsByType_keys_sorted (sortedByType l) hsorted
    exact List.Pairwise.imp ne_of_lt hkeys
  · intro t g hmem
    have hg := hfilter t g hmem
    refine ⟨?_, hg⟩
    intro p hp
    rw [hg] at hp
    have := List.of_mem_filter hp
    simpa using this
  · intro p hpl
    have hpsorted : p ∈ sortedByType l := (hperm.mem_iff).mpr hpl
    have hpflat : p ∈ ((group_by_type l).map Prod.snd).flatten := by
      rw [hflat]
      exact hpsorted
    obtain ⟨gl, hgl, hpgl⟩ := List.mem_flatten.mp hpflat
    obtain ⟨⟨t, g⟩, htg, rfl⟩ := List.mem_map.mp hgl
    have hg := hfilter t g htg
    have hpt : p.type_ = t := by
      rw [hg] at hpgl
      simpa using List.of_mem_filter hpgl
    exact ⟨g, hpt ▸ htg, hpgl⟩

end Coolecode
